import Mathlib

/-!
Verification development for the fastloop trading engine
(`fastloop_trader.py`).  The Python source is shallowly embedded:
pure functions become Lean functions on `List Char`, `ℚ` and `Int`;
network calls and other effects are passed in as explicit oracle values
or oracle functions; the per-asset decision cycle becomes a pure
function producing an observable trace.  Python floats are modelled as
rationals (`ℚ`), Unix timestamps as `Int`, and Python strings as
`List Char` (ASCII; Python `str.lower` is modelled by `Char.toLower`,
which lowercases exactly the ASCII range).
-/

/-! ## String helpers -/

/-- Substring containment, `needle in haystack` of Python. -/
def containsSub (needle : List Char) : List Char → Bool
  | [] => needle.isEmpty
  | c :: t => needle.isPrefixOf (c :: t) || containsSub needle t

/-- Python `str.lower()` restricted to ASCII. -/
def lowerStr (s : List Char) : List Char := s.map Char.toLower

/-- Drop leading whitespace, the `\s*` of the regexes. -/
def skipSpaces : List Char → List Char
  | [] => []
  | c :: t => if c.isWhitespace then skipSpaces t else c :: t

/-- Python `question.split(',')[-1]`: the segment after the last comma
(the whole string when no comma occurs). -/
def afterLastComma (s : List Char) : List Char :=
  match (s.splitOn ',').getLast? with
  | some seg => seg
  | none => s

/-- Python `segment.split('ET')[0]`: the prefix before the first
occurrence of `"ET"` (the whole string when `"ET"` does not occur). -/
def beforeET : List Char → List Char
  | [] => []
  | 'E' :: 'T' :: _ => []
  | c :: t => c :: beforeET t

/-! ## Clock-time regex matching (`_is_5m_market` / `_is_15m_market` /
`_is_hourly_market` of `fastloop_trader.py`)

The Python code uses
`re.search(r'(\d{1,2}):(\d{2})(AM|PM)\s*-\s*(\d{1,2}):(\d{2})(AM|PM)', q)`.
We embed the search directly: `matchClockAt` matches one
`(\d{1,2}):(\d{2})(AM|PM)` group at the head of the input (greedy on the
hour, with backtracking from two digits to one), `matchRangeAt` matches
the full range pattern at the head, and `searchRange` scans left to
right for the first match, exactly as `re.search` does.  Note that when
a two-digit hour is followed by `":dd(AM|PM)"` the one-digit
alternative cannot also lead to a match (the character after a single
digit would have to be both a digit and a colon), so committing as in
the code below agrees with full regex backtracking. -/

def digitVal (c : Char) : Nat := c.toNat - 48

/-- Match `(\d{2})(AM|PM)` after a colon. -/
def matchMinAmPm : List Char → Option (Nat × Bool × List Char)
  | ':' :: a :: b :: p :: 'M' :: rest =>
    if a.isDigit && b.isDigit && (p = 'A' || p = 'P') then
      some (10 * digitVal a + digitVal b, p = 'P', rest)
    else none
  | _ => none

/-- Match `(\d{1,2}):(\d{2})(AM|PM)` at the head of the input,
returning (hour, minute, isPM, rest). -/
def matchClockAt : List Char → Option (Nat × Nat × Bool × List Char)
  | a :: b :: rest =>
    if a.isDigit && b.isDigit then
      match matchMinAmPm rest with
      | some (m, pm, r) => some (10 * digitVal a + digitVal b, m, pm, r)
      | none =>
        match matchMinAmPm (b :: rest) with
        | some (m, pm, r) => some (digitVal a, m, pm, r)
        | none => none
    else if a.isDigit then
      match matchMinAmPm (b :: rest) with
      | some (m, pm, r) => some (digitVal a, m, pm, r)
      | none => none
    else none
  | [_] => none
  | [] => none

/-- Source `(h % 12 + (12 if pm else 0)) * 60 + m` of the source, minutes
since midnight. -/
def toMinutes (h m : Nat) (pm : Bool) : Int :=
  ((h % 12 + (if pm then 12 else 0)) * 60 + m : Nat)

/-- Match the whole range pattern at the head of the input, returning
the two times in minutes since midnight. -/
def matchRangeAt (s : List Char) : Option (Int × Int) :=
  match matchClockAt s with
  | none => none
  | some (h1, m1, pm1, r1) =>
    match skipSpaces r1 with
    | '-' :: r2 =>
      match matchClockAt (skipSpaces r2) with
      | none => none
      | some (h2, m2, pm2, _) =>
        some (toMinutes h1 m1 pm1, toMinutes h2 m2 pm2)
    | _ => none

/-- Source `re.search` for the range pattern: first match, scanning left to
right. -/
def searchRange : List Char → Option (Int × Int)
  | [] => none
  | c :: t =>
    match matchRangeAt (c :: t) with
    | some r => some r
    | none => searchRange t

/-- Source `_is_5m_market`: the two extracted times differ by 4 to 6 minutes. -/
def is_5m_market (question : List Char) : Bool :=
  match searchRange question with
  | none => false
  | some (t1, t2) => decide (4 ≤ t2 - t1 ∧ t2 - t1 ≤ 6)

/-- Source `_is_15m_market`: the two extracted times differ by 14 to 16 minutes. -/
def is_15m_market (question : List Char) : Bool :=
  match searchRange question with
  | none => false
  | some (t1, t2) => decide (14 ≤ t2 - t1 ∧ t2 - t1 ≤ 16)

/-- The single-time pattern `\d{1,2}(?::\d{2})?(AM|PM)\s*ET` matched at
the head of the input; full backtracking over the two hour widths and
the optional `:dd` group. -/
def matchSingleTail2 (s : List Char) : Bool :=
  match s with
  | p :: 'M' :: r =>
    (p = 'A' || p = 'P') &&
      (match skipSpaces r with
       | 'E' :: 'T' :: _ => true
       | _ => false)
  | _ => false

def matchSingleTail1 (s : List Char) : Bool :=
  (match s with
   | ':' :: a :: b :: r => a.isDigit && b.isDigit && matchSingleTail2 r
   | _ => false) || matchSingleTail2 s

def matchSingleAt (s : List Char) : Bool :=
  (match s with
   | a :: b :: r => a.isDigit && b.isDigit && matchSingleTail1 r
   | _ => false) ||
  (match s with
   | a :: r => a.isDigit && matchSingleTail1 r
   | _ => false)

/-- Source `re.search` for the single-time pattern. -/
def searchSingle : List Char → Bool
  | [] => false
  | c :: t => matchSingleAt (c :: t) || searchSingle t

/-- Source `'-' not in question.split(',')[-1].split('ET')[0]` of
`_is_hourly_market`. -/
def noDashInTrailingSegment (question : List Char) : Bool :=
  !(beforeET (afterLastComma question)).contains '-'

/-- Source `_is_hourly_market`: a single trailing clock time with no dash in
the trailing clock-time segment, or a range spanning 55 to 65 minutes. -/
def is_hourly_market (question : List Char) : Bool :=
  if searchSingle question && noDashInTrailingSegment question then true
  else
    match searchRange question with
    | none => false
    | some (t1, t2) => decide (55 ≤ t2 - t1 ∧ t2 - t1 ≤ 65)

/-- Source `_is_above_below_market`: `"above" in q.lower() and "on " in q.lower()`. -/
def is_above_below_market (question : List Char) : Bool :=
  containsSub ("above".toList) (lowerStr question) &&
    containsSub ("on ".toList) (lowerStr question)





/-! ## Momentum signals (`get_binance_momentum`, `get_coingecko_momentum`,
`get_kraken_momentum`)

Candles keep the fields the source reads: Binance kline indexes 1/4/5
and Kraken OHLC indexes 1/4/6 (open, close, volume), already parsed to
numbers (a `float(...)` parse failure in the source returns `None`; the
claims under verification only concern well-formed candle data).
Division by a zero `price_then` would raise an uncaught
`ZeroDivisionError` in the source; the claims only concern
`price_then > 0`, where the `ℚ` model and the source agree. -/

inductive Direction
  | up
  | down
  | neutral
deriving DecidableEq

structure Candle where
  openPrice : ℚ
  closePrice : ℚ
  volume : ℚ
deriving DecidableEq

structure Signal where
  momentum_pct : ℚ
  direction : Direction
  price_now : ℚ
  price_then : ℚ
  avg_volume : ℚ
  latest_volume : ℚ
  volume_ratio : ℚ
  candles : Nat
deriving DecidableEq

/-- Last element of `a :: l`. -/
def lastD {α : Type} (a : α) : List α → α
  | [] => a
  | c :: t => lastD c t

/-- Second-to-last element of `a :: b :: l` (Python `xs[-2]`). -/
def penultimate {α : Type} (a b : α) : List α → α
  | [] => a
  | c :: t => penultimate b c t

theorem lastD_eq_getLast {α : Type} (a : α) (l : List α) :
    lastD a l = (a :: l).getLast (List.cons_ne_nil a l) := by
  induction l generalizing a with
  | nil => rfl
  | cons c t ih => simpa [lastD, List.getLast] using ih c

/-- Source `get_binance_momentum`: `price_then` is the open of the oldest
candle, `price_now` the close of the newest; fewer than 2 candles give
`None`. -/
def get_binance_momentum (candles : List Candle) : Option Signal :=
  match candles with
  | [] => none
  | [_] => none
  | c0 :: c1 :: rest =>
    let price_then := c0.openPrice
    let price_now := (lastD c1 rest).closePrice
    let momentum_pct := (price_now - price_then) / price_then * 100
    let direction := if 0 < momentum_pct then Direction.up else Direction.down
    let volumes := (c0 :: c1 :: rest).map Candle.volume
    let avg_volume := volumes.sum / (volumes.length : ℚ)
    let latest_volume := lastD c0.volume ((c1 :: rest).map Candle.volume)
    let volume_ratio := if 0 < avg_volume then latest_volume / avg_volume else 1
    some ⟨momentum_pct, direction, price_now, price_then, avg_volume,
          latest_volume, volume_ratio, rest.length + 2⟩

/-- Source `get_coingecko_momentum`: the degraded last-price-only fallback.
The input is the price reported by the simple-price endpoint (`none`
models a missing/empty payload; a zero price is falsy in Python and
also yields `None`). -/
def get_coingecko_momentum (price_now : Option ℚ) : Option Signal :=
  match price_now with
  | none => none
  | some p =>
    if p = 0 then none
    else some ⟨0, Direction.neutral, p, p, 0, 0, 1, 0⟩

/-- Source `recent_candles = candles[-lookback_minutes:]` of
`get_kraken_momentum` (Python slicing: `xs[-0:]` is the whole list). -/
def recentOf (candles : List Candle) (lookback : Nat) : List Candle :=
  if lookback = 0 then candles else candles.drop (candles.length - lookback)

/-- Source `get_kraken_momentum`: momentum over the last `lookback` candles;
the volume baseline averages over `candles[:-1]` (all candles of the
returned series except the still-forming last one) and the "latest"
volume is the second-to-last candle of the window. -/
def get_kraken_momentum (candles : List Candle) (lookback : Nat) : Option Signal :=
  if candles.isEmpty || candles.length < lookback then none
  else
    match recentOf candles lookback with
    | [] => none
    | [_] => none
    | r0 :: r1 :: rs =>
      let price_then := r0.openPrice
      let price_now := (lastD r1 rs).closePrice
      let momentum_pct := (price_now - price_then) / price_then * 100
      let direction := if 0 < momentum_pct then Direction.up else Direction.down
      let completed := candles.dropLast
      let all_volumes := if completed.isEmpty then candles.map Candle.volume
        else completed.map Candle.volume
      let avg_volume := if all_volumes.isEmpty then 0
        else all_volumes.sum / (all_volumes.length : ℚ)
      let latest_volume := (penultimate r0 r1 rs).volume
      let volume_ratio := if 0 < avg_volume then latest_volume / avg_volume else 1
      some ⟨momentum_pct, direction, price_now, price_then, avg_volume,
            latest_volume, volume_ratio, rs.length + 2⟩

theorem penultimate_eq_getLast?_dropLast {α : Type} :
    ∀ (l : List α) (a b : α),
      ((a :: b :: l).dropLast).getLast? = some (penultimate a b l)
  | [], a, b => rfl
  | c :: t, a, b => by
    have ih := penultimate_eq_getLast?_dropLast t b c
    simp only [List.dropLast, penultimate] at ih ⊢
    rw [List.getLast?_cons_cons] at *
    · exact ih

/-! ## Claim C7: market-title classification -/

def ex5m : List Char := "Bitcoin Up or Down - March 1, 5:30AM-5:35AM ET".toList
def exHourly : List Char := "Bitcoin Up or Down - March 1, 4PM ET".toList
def exThreshold : List Char := "Bitcoin above 72k on March 2".toList

/-- C7: a title whose first extracted clock-time range (12-hour AM/PM
times converted to minutes since midnight) spans 4–6 minutes classifies
as 5-minute, 14–16 as 15-minute, 55–65 as hourly; a title with a single
trailing clock time and no dash inside the trailing clock-time segment
classifies as hourly; and the three example titles classify as
5-minute, hourly and threshold respectively. -/
theorem classify_c7 :
    (∀ (q : List Char) (t1 t2 : Int), searchRange q = some (t1, t2) →
      (is_5m_market q = true ↔ 4 ≤ t2 - t1 ∧ t2 - t1 ≤ 6) ∧
      (is_15m_market q = true ↔ 14 ≤ t2 - t1 ∧ t2 - t1 ≤ 16) ∧
      (55 ≤ t2 - t1 ∧ t2 - t1 ≤ 65 → is_hourly_market q = true)) ∧
    (∀ q : List Char, searchSingle q = true → noDashInTrailingSegment q = true →
      is_hourly_market q = true) ∧
    (is_5m_market ex5m = true ∧ is_15m_market ex5m = false ∧
     is_hourly_market ex5m = false ∧ is_above_below_market ex5m = false) ∧
    (is_hourly_market exHourly = true ∧ is_5m_market exHourly = false ∧
     is_15m_market exHourly = false ∧ is_above_below_market exHourly = false) ∧
    (is_above_below_market exThreshold = true ∧ is_5m_market exThreshold = false ∧
     is_15m_market exThreshold = false ∧ is_hourly_market exThreshold = false) := by
  refine ⟨?_, ?_, by decide, by decide, by decide⟩
  · intro q t1 t2 h
    refine ⟨?_, ?_, ?_⟩
    · simp [is_5m_market, h]
    · simp [is_15m_market, h]
    · intro hband
      unfold is_hourly_market
      split
      · rfl
      · rw [h]
        simpa using hband
  · intro q h1 h2
    simp [is_hourly_market, h1, h2]

/-- Witness for C7 at the example titles. -/
theorem classify_c7_witness :
    (is_5m_market ex5m = true ↔ 4 ≤ (335 : Int) - 330 ∧ (335 : Int) - 330 ≤ 6) ∧
    is_hourly_market exHourly = true :=
  ⟨(classify_c7.1 ex5m 330 335 (by decide)).1,
   classify_c7.2.1 exHourly (by decide) (by decide)⟩

/-! ## Claim C6: momentum formula -/

def candlesW : List Candle := [⟨100, 101, 10⟩, ⟨101, 102, 20⟩]

def sigW : Signal := ⟨2, Direction.up, 102, 100, 15, 20, 4/3, 2⟩

def cgW : Signal := ⟨0, Direction.neutral, 5, 5, 0, 0, 1, 0⟩

/-- C6: a candle-backend momentum signal with positive `price_then` has
`momentum_pct = (price_now - price_then)/price_then*100`, with
`price_then` the open of the oldest candle and `price_now` the close of
the newest, and `direction = up` iff `momentum_pct > 0`; the
last-price-only fallback always reports `neutral` with zero momentum
and `price_then = price_now`. -/
theorem momentum_c6 :
    (∀ (candles : List Candle) (s : Signal), get_binance_momentum candles = some s →
      0 < s.price_then →
      ∃ h : candles ≠ [],
        s.price_then = (candles.head h).openPrice ∧
        s.price_now = (candles.getLast h).closePrice ∧
        s.momentum_pct = (s.price_now - s.price_then) / s.price_then * 100 ∧
        (s.direction = Direction.up ↔ 0 < s.momentum_pct)) ∧
    (∀ (p : Option ℚ) (s : Signal), get_coingecko_momentum p = some s →
      s.direction = Direction.neutral ∧ s.momentum_pct = 0 ∧
      s.price_then = s.price_now) := by
  constructor
  · intro candles s hs _hpos
    match candles with
    | [] => simp [get_binance_momentum] at hs
    | [_] => simp [get_binance_momentum] at hs
    | c0 :: c1 :: rest =>
      simp only [get_binance_momentum] at hs
      injection hs with hs
      subst hs
      refine ⟨by simp, rfl, ?_, rfl, ?_⟩
      · show (lastD c1 rest).closePrice = _
        rw [lastD_eq_getLast, List.getLast_cons (List.cons_ne_nil c1 rest)]
      · show (if 0 < _ then Direction.up else Direction.down) = Direction.up ↔ _
        split
        · next h => exact iff_of_true rfl h
        · next h => exact iff_of_false (by simp) h
  · intro p s hs
    match p with
    | none => simp [get_coingecko_momentum] at hs
    | some v =>
      simp only [get_coingecko_momentum] at hs
      split at hs
      · exact absurd hs (by simp)
      · injection hs with hs
        subst hs
        exact ⟨rfl, rfl, rfl⟩

/-- Witness for C6 at a concrete two-candle series and a concrete
fallback price. -/
theorem momentum_c6_witness :
    (sigW.momentum_pct = (sigW.price_now - sigW.price_then) / sigW.price_then * 100 ∧
     (sigW.direction = Direction.up ↔ 0 < sigW.momentum_pct)) ∧
    (cgW.direction = Direction.neutral ∧ cgW.momentum_pct = 0 ∧
     cgW.price_then = cgW.price_now) := by
  constructor
  · obtain ⟨h, _, _, h3, h4⟩ :=
      momentum_c6.1 candlesW sigW (by with_unfolding_all decide) (by with_unfolding_all decide)
    exact ⟨h3, h4⟩
  · exact momentum_c6.2 (some 5) cgW (by with_unfolding_all decide)

/-! ## Claim C8: volume ratio -/

def candleV (v : ℚ) : Candle := ⟨100, 100, v⟩

/-- Ten Kraken candles: five completed high-volume candles followed by
the lookback window (four completed low-volume candles plus the
still-forming last one). -/
def krakenC : List Candle :=
  [candleV 100, candleV 100, candleV 100, candleV 100, candleV 100,
   candleV 10, candleV 10, candleV 10, candleV 10, candleV 10]

def sKrC : Signal := ⟨0, Direction.down, 100, 100, 60, 10, 1/6, 5⟩

/-- C8 counterexample: on `krakenC` with a 5-candle lookback the Kraken
backend reports `volume_ratio = 1/6`, dividing by the mean over all
nine completed candles of the whole series (540/9 = 60), not by the
mean volume over the lookback window (10, with or without the
still-forming candle), which would give ratio 1.  The claim that the
reported ratio equals latest-completed-volume over the window mean is
therefore false at this input. -/
theorem volume_ratio_c8_counterexample :
    get_kraken_momentum krakenC 5 = some sKrC ∧
    sKrC.latest_volume = 10 ∧
    sKrC.volume_ratio ≠ 10 / ((10 + 10 + 10 + 10 : ℚ) / 4) ∧
    sKrC.volume_ratio ≠ 10 / ((10 + 10 + 10 + 10 + 10 : ℚ) / 5) := by
  refine ⟨by with_unfolding_all decide, rfl, by norm_num [sKrC], by norm_num [sKrC]⟩

theorem lastD_map_volume :
    ∀ (l : List Candle) (c : Candle),
      lastD c.volume (l.map Candle.volume) = (lastD c l).volume
  | [], _ => rfl
  | c :: t, _ => lastD_map_volume t c

/-- C8 amended: the Binance backend's ratio divides the volume of the
last candle of the fetched window by the mean volume over that whole
window; the Kraken backend's "latest" volume is the second-to-last
candle of the lookback window, but its mean baseline is taken over the
entire returned series except the still-forming last candle — not over
the lookback window.  Both backends report 1.0 whenever the baseline
mean is zero: the division is never performed on zero. -/
theorem volume_ratio_c8_amended :
    (∀ (candles : List Candle) (s : Signal), get_binance_momentum candles = some s →
      ∃ h : candles ≠ [],
        s.latest_volume = (candles.getLast h).volume ∧
        s.avg_volume = (candles.map Candle.volume).sum / (candles.length : ℚ) ∧
        s.volume_ratio = (if 0 < s.avg_volume then s.latest_volume / s.avg_volume else 1) ∧
        (s.avg_volume = 0 → s.volume_ratio = 1)) ∧
    (∀ (candles : List Candle) (lookback : Nat) (s : Signal),
      get_kraken_momentum candles lookback = some s →
      ∃ (a b : Candle) (rs : List Candle) (p : Candle),
        recentOf candles lookback = a :: b :: rs ∧
        ((a :: b :: rs).dropLast).getLast? = some p ∧
        s.latest_volume = p.volume ∧
        s.avg_volume =
          (candles.dropLast.map Candle.volume).sum / (candles.dropLast.length : ℚ) ∧
        s.volume_ratio = (if 0 < s.avg_volume then s.latest_volume / s.avg_volume else 1) ∧
        (s.avg_volume = 0 → s.volume_ratio = 1)) := by
  constructor
  · intro candles s hs
    match candles with
    | [] => simp [get_binance_momentum] at hs
    | [_] => simp [get_binance_momentum] at hs
    | c0 :: c1 :: rest =>
      simp only [get_binance_momentum] at hs
      injection hs with hs
      subst hs
      refine ⟨by simp, ?_, ?_, rfl, ?_⟩
      · show lastD c0.volume ((c1 :: rest).map Candle.volume) = _
        rw [lastD_map_volume, lastD_eq_getLast]
      · dsimp only
        rw [List.length_map]
      · intro h0
        dsimp only at h0 ⊢
        rw [h0]
        simp
  · intro candles lookback s hs
    rw [get_kraken_momentum] at hs
    split at hs
    · exact absurd hs (by simp)
    · rcases hrec : recentOf candles lookback with _ | ⟨r0, _ | ⟨r1, rs⟩⟩ <;> rw [hrec] at hs
      · exact absurd hs (by simp)
      · exact absurd hs (by simp)
      · have hlen2 : 2 ≤ candles.length := by
          have hr : (recentOf candles lookback).length = rs.length + 2 := by
            rw [hrec]; simp
          by_cases h0 : lookback = 0
          · rw [recentOf, if_pos h0] at hr
            omega
          · rw [recentOf, if_neg h0] at hr
            rw [List.length_drop] at hr
            omega
        have hne' : candles.dropLast ≠ [] := by
          have hLd := List.length_dropLast candles
          intro hcontra
          rw [hcontra] at hLd
          simp only [List.length_nil] at hLd
          omega
        have hc : candles.dropLast.isEmpty = false := by
          simpa using hne'
        have hc2 : (candles.dropLast.map Candle.volume).isEmpty = false := by
          cases hdl : candles.dropLast with
          | nil => exact absurd hdl hne'
          | cons x xs => rfl
        injection hs with hs
        subst hs
        refine ⟨r0, r1, rs, penultimate r0 r1 rs, rfl,
          penultimate_eq_getLast?_dropLast rs r0 r1, rfl, ?_, rfl, ?_⟩
        · dsimp only
          simp only [hc, hc2, Bool.false_eq_true, if_false, List.length_map]
        · intro h0
          dsimp only at h0 ⊢
          rw [h0]
          simp

/-- Witness for C8-amended at the concrete Binance and Kraken series. -/
theorem volume_ratio_c8_amended_witness :
    (sigW.avg_volume = (candlesW.map Candle.volume).sum / (candlesW.length : ℚ) ∧
     sigW.volume_ratio =
       (if 0 < sigW.avg_volume then sigW.latest_volume / sigW.avg_volume else 1)) ∧
    (sKrC.avg_volume =
       (krakenC.dropLast.map Candle.volume).sum / (krakenC.dropLast.length : ℚ) ∧
     sKrC.volume_ratio =
       (if 0 < sKrC.avg_volume then sKrC.latest_volume / sKrC.avg_volume else 1)) := by
  constructor
  · obtain ⟨h, _, h2, h3, _⟩ :=
      volume_ratio_c8_amended.1 candlesW sigW (by with_unfolding_all decide)
    exact ⟨h2, h3⟩
  · obtain ⟨a, b, rs, p, _, _, _, h4, h5, _⟩ :=
      volume_ratio_c8_amended.2 krakenC 5 sKrC (by with_unfolding_all decide)
    exact ⟨h4, h5⟩

/-! ## Claim C4: `select_best_price_level`

Markets carry the fields the selection and discovery logic read.
`outcome_prices` holds the parsed `yes` price of the market's
`outcome_prices` JSON pair (`none` models an empty or unparsable pair,
for which the source falls back to 0.5). -/

structure Market where
  question : List Char
  slug : List Char
  simmer_market_id : List Char
  end_time : Option Int
  price_level : Option ℚ
  outcome_prices : Option ℚ
deriving DecidableEq

inductive Side
  | yes
  | no
deriving DecidableEq

/-- Source `float(json.loads(m.get("outcome_prices", "[]"))[0])` with the 0.5
fallback on an empty or unparsable pair. -/
def yesPriceOf (m : Market) : ℚ := (m.outcome_prices).getD (1/2)

/-- A candidate entry `(distance, side, buy_price, market)` as appended
by the loop of `select_best_price_level`. -/
def candidateOf (direction : Direction) (current_price max_buy_price : ℚ)
    (m : Market) : Option (ℚ × Side × ℚ × Market) :=
  match m.price_level with
  | none => none
  | some level =>
    let yes_price := yesPriceOf m
    let no_price := 1 - yes_price
    match direction with
    | Direction.up =>
      if current_price < level ∧ yes_price ≤ max_buy_price ∧ 0 < yes_price then
        some (level - current_price, Side.yes, yes_price, m)
      else none
    | Direction.down =>
      if level < current_price ∧ no_price ≤ max_buy_price ∧ 0 < no_price then
        some (current_price - level, Side.no, no_price, m)
      else none
    | Direction.neutral => none

/-- Source `candidates.sort(key=lambda x: x[0])` orders by distance; Python's
sort is stable, so the first element of the sorted list is the first
candidate of minimal distance — as is the head of a stable insertion
sort by `candLE`. -/
def candLE (a b : ℚ × Side × ℚ × Market) : Prop := a.1 ≤ b.1

instance : DecidableRel candLE := fun a b => inferInstanceAs (Decidable (a.1 ≤ b.1))

instance : IsTotal (ℚ × Side × ℚ × Market) candLE := ⟨fun a b => le_total a.1 b.1⟩

instance : IsTrans (ℚ × Side × ℚ × Market) candLE :=
  ⟨fun _ _ _ hab hbc => le_trans hab hbc⟩

/-- Source `select_best_price_level`: build the qualifying candidates in market
order, sort by distance from the current price ascending, return the
head as `(side, buy_price, market)`, or `None` when no candidate
qualifies. -/
def select_best_price_level (markets : List Market) (direction : Direction)
    (current_price max_buy_price : ℚ) : Option (Side × ℚ × Market) :=
  match (markets.filterMap
      (candidateOf direction current_price max_buy_price)).insertionSort candLE with
  | [] => none
  | c :: _ => some (c.2.1, c.2.2.1, c.2.2.2)

/-- The qualification policy of the claim, read off the loop body. -/
def Qualifies (direction : Direction) (current_price max_buy_price : ℚ)
    (m : Market) : Prop :=
  ∃ l, m.price_level = some l ∧
    ((direction = Direction.up ∧ current_price < l ∧
      yesPriceOf m ≤ max_buy_price ∧ 0 < yesPriceOf m) ∨
     (direction = Direction.down ∧ l < current_price ∧
      1 - yesPriceOf m ≤ max_buy_price ∧ 0 < 1 - yesPriceOf m))

theorem candidateOf_eq_some {d : Direction} {cur mb : ℚ} {m : Market}
    {dist : ℚ} {s : Side} {p : ℚ} {m' : Market}
    (h : candidateOf d cur mb m = some (dist, s, p, m')) :
    m' = m ∧ ∃ l, m.price_level = some l ∧
      ((d = Direction.up ∧ s = Side.yes ∧ p = yesPriceOf m ∧ dist = l - cur ∧
        cur < l ∧ p ≤ mb ∧ 0 < p) ∨
       (d = Direction.down ∧ s = Side.no ∧ p = 1 - yesPriceOf m ∧ dist = cur - l ∧
        l < cur ∧ p ≤ mb ∧ 0 < p)) := by
  obtain ⟨q, sl, id, et, pl, op⟩ := m
  rcases pl with _ | l
  · exact absurd h (by simp [candidateOf])
  · cases d with
    | neutral => exact absurd h (by simp [candidateOf])
    | up =>
      simp only [candidateOf] at h
      split at h
      · next hcond =>
        simp only [Option.some.injEq, Prod.mk.injEq] at h
        obtain ⟨h1, h2, h3, h4⟩ := h
        subst h1; subst h2; subst h3; subst h4
        exact ⟨rfl, l, rfl, Or.inl ⟨rfl, rfl, rfl, rfl, hcond.1, hcond.2.1, hcond.2.2⟩⟩
      · exact absurd h (by simp)
    | down =>
      simp only [candidateOf] at h
      split at h
      · next hcond =>
        simp only [Option.some.injEq, Prod.mk.injEq] at h
        obtain ⟨h1, h2, h3, h4⟩ := h
        subst h1; subst h2; subst h3; subst h4
        exact ⟨rfl, l, rfl, Or.inr ⟨rfl, rfl, rfl, rfl, hcond.1, hcond.2.1, hcond.2.2⟩⟩
      · exact absurd h (by simp)

theorem qualifies_candidateOf {d : Direction} {cur mb : ℚ} {m : Market}
    (hq : Qualifies d cur mb m) :
    ∃ l s p, m.price_level = some l ∧
      candidateOf d cur mb m = some (|l - cur|, s, p, m) := by
  obtain ⟨l, hl, hdisj⟩ := hq
  obtain ⟨q, sl, id, et, pl, op⟩ := m
  obtain rfl : pl = some l := hl
  rcases hdisj with ⟨hd, hcl, hle, hpos⟩ | ⟨hd, hcl, hle, hpos⟩
  · subst hd
    refine ⟨l, Side.yes, yesPriceOf ⟨q, sl, id, et, some l, op⟩, rfl, ?_⟩
    simp only [candidateOf]
    rw [if_pos ⟨hcl, hle, hpos⟩, abs_of_pos (sub_pos.2 hcl)]
  · subst hd
    refine ⟨l, Side.no, 1 - yesPriceOf ⟨q, sl, id, et, some l, op⟩, rfl, ?_⟩
    simp only [candidateOf]
    rw [if_pos ⟨hcl, hle, hpos⟩, abs_of_neg (sub_neg.2 hcl), neg_sub]

theorem candidateOf_isSome_iff {d : Direction} {cur mb : ℚ} {m : Market} :
    (candidateOf d cur mb m).isSome = true ↔ Qualifies d cur mb m := by
  constructor
  · intro h
    obtain ⟨c, hc⟩ := Option.isSome_iff_exists.1 h
    obtain ⟨dist, s, p, m'⟩ := c
    obtain ⟨-, l, hl, hdisj⟩ := candidateOf_eq_some hc
    refine ⟨l, hl, ?_⟩
    rcases hdisj with ⟨hd, -, hp, -, hcl, hle, hpos⟩ | ⟨hd, -, hp, -, hcl, hle, hpos⟩
    · exact Or.inl ⟨hd, hcl, hp ▸ hle, hp ▸ hpos⟩
    · exact Or.inr ⟨hd, hcl, hp ▸ hle, hp ▸ hpos⟩
  · intro hq
    obtain ⟨l, s, p, hl, hc⟩ := qualifies_candidateOf hq
    rw [hc]
    rfl

theorem select_head_min {markets : List Market} {d : Direction} {cur mb : ℚ}
    {dist : ℚ} {s0 : Side} {p0 : ℚ} {m0 : Market}
    {cs : List (ℚ × Side × ℚ × Market)}
    (hsort : (markets.filterMap (candidateOf d cur mb)).insertionSort candLE
        = (dist, s0, p0, m0) :: cs)
    {m' : Market} {l' : ℚ} (hm' : m' ∈ markets) (hl' : m'.price_level = some l')
    (hq : Qualifies d cur mb m') :
    dist ≤ |l' - cur| := by
  obtain ⟨l0, s', p', hl0, hc'⟩ := qualifies_candidateOf hq
  have hleq : l0 = l' := Option.some.inj (hl0.symm.trans hl')
  rw [hleq] at hc'
  have hmem : (|l' - cur|, s', p', m') ∈
      (markets.filterMap (candidateOf d cur mb)).insertionSort candLE :=
    (List.mem_insertionSort candLE).2 (List.mem_filterMap.2 ⟨m', hm', hc'⟩)
  rw [hsort] at hmem
  have hsorted := List.sorted_insertionSort candLE
      (markets.filterMap (candidateOf d cur mb))
  rw [hsort] at hsorted
  rcases List.mem_cons.1 hmem with heq | hmemcs
  · exact le_of_eq (congrArg Prod.fst heq).symm
  · exact (List.sorted_cons.1 hsorted).1 _ hmemcs

def ex68 : Market := ⟨[], [], [], none, some 68000, some (3/100)⟩
def ex70 : Market := ⟨[], [], [], none, some 70000, some (8/100)⟩
def ex74 : Market := ⟨[], [], [], none, some 74000, some (1/50)⟩
def exMarkets : List Market := [ex68, ex70, ex74]

/-- C4: under `up` only levels strictly above the current price qualify,
with side `yes` and `0 < yes_price ≤ max_buy_price`; under `down` only
levels strictly below, with side `no` at `1 - yes_price` under the same
ceiling and positivity; the returned candidate has minimal distance
from the current price among all qualifying candidates; `none` is
returned exactly when no candidate qualifies; and on the example ladder
68000 (yes 0.03), 70000 (yes 0.08), 74000 (yes 0.02) with current price
71000, direction `up` and ceiling 0.05 the selection is the 74000
market, side `yes` at 0.02. -/
theorem select_best_price_level_c4 :
    (∀ (markets : List Market) (d : Direction) (cur mb : ℚ)
       (side : Side) (price : ℚ) (m : Market),
       select_best_price_level markets d cur mb = some (side, price, m) →
       m ∈ markets ∧
       ∃ l, m.price_level = some l ∧
         (d = Direction.up →
           side = Side.yes ∧ cur < l ∧ price = yesPriceOf m ∧
           price ≤ mb ∧ 0 < price) ∧
         (d = Direction.down →
           side = Side.no ∧ l < cur ∧ price = 1 - yesPriceOf m ∧
           price ≤ mb ∧ 0 < price) ∧
         d ≠ Direction.neutral ∧
         (∀ m' l', m' ∈ markets → m'.price_level = some l' →
           Qualifies d cur mb m' → |l - cur| ≤ |l' - cur|)) ∧
    (∀ (markets : List Market) (d : Direction) (cur mb : ℚ),
       select_best_price_level markets d cur mb = none ↔
       ∀ m ∈ markets, ¬ Qualifies d cur mb m) ∧
    (select_best_price_level exMarkets Direction.up 71000 (1/20) =
       some (Side.yes, 1/50, ex74)) := by
  refine ⟨?_, ?_, ?_⟩
  · intro markets d cur mb side price m hsel
    unfold select_best_price_level at hsel
    rcases hsort : (markets.filterMap (candidateOf d cur mb)).insertionSort candLE
      with _ | ⟨⟨dist, s0, p0, m0⟩, cs⟩ <;> rw [hsort] at hsel
    · exact absurd hsel (by simp)
    · simp only [Option.some.injEq, Prod.mk.injEq] at hsel
      obtain ⟨h1, h2, h3⟩ := hsel
      subst side; subst price; subst m
      have hmemc : (dist, s0, p0, m0) ∈
          markets.filterMap (candidateOf d cur mb) := by
        have hx : (dist, s0, p0, m0) ∈
            (markets.filterMap (candidateOf d cur mb)).insertionSort candLE := by
          rw [hsort]; exact List.mem_cons_self _ _
        exact (List.mem_insertionSort candLE).1 hx
      obtain ⟨m1, hm1, hc1⟩ := List.mem_filterMap.1 hmemc
      obtain ⟨rfl, l, hl, hdisj⟩ := candidateOf_eq_some hc1
      rcases hdisj with ⟨hd, hs, hp, hdist, hcl, hle, hpos⟩ |
        ⟨hd, hs, hp, hdist, hcl, hle, hpos⟩
      · subst hd
        refine ⟨hm1, l, hl, fun _ => ⟨hs, hcl, hp, hle, hpos⟩,
          fun hdn => absurd hdn (by simp), by simp, ?_⟩
        intro m' l' hm' hl' hq
        have hmin := select_head_min hsort hm' hl' hq
        rw [abs_of_pos (sub_pos.2 hcl), ← hdist]
        exact hmin
      · subst hd
        refine ⟨hm1, l, hl, fun hdn => absurd hdn (by simp),
          fun _ => ⟨hs, hcl, hp, hle, hpos⟩, by simp, ?_⟩
        intro m' l' hm' hl' hq
        have hmin := select_head_min hsort hm' hl' hq
        rw [abs_of_neg (sub_neg.2 hcl), neg_sub, ← hdist]
        exact hmin
  · intro markets d cur mb
    constructor
    · intro hnone m hm hq
      obtain ⟨l0, s', p', hl0, hc'⟩ := qualifies_candidateOf hq
      have hmem : (|l0 - cur|, s', p', m) ∈
          markets.filterMap (candidateOf d cur mb) :=
        List.mem_filterMap.2 ⟨m, hm, hc'⟩
      unfold select_best_price_level at hnone
      rcases hsort : (markets.filterMap (candidateOf d cur mb)).insertionSort candLE
        with _ | ⟨c, cs⟩ <;> rw [hsort] at hnone
      · have hlen := List.length_insertionSort candLE
          (markets.filterMap (candidateOf d cur mb))
        rw [hsort] at hlen
        have hnil : markets.filterMap (candidateOf d cur mb) = [] :=
          List.eq_nil_of_length_eq_zero hlen.symm
        rw [hnil] at hmem
        exact absurd hmem (List.not_mem_nil _)
      · exact absurd hnone (by simp)
    · intro hall
      unfold select_best_price_level
      rcases hsort : (markets.filterMap (candidateOf d cur mb)).insertionSort candLE
        with _ | ⟨⟨dist, s0, p0, m0⟩, cs⟩
      · rfl
      · exfalso
        have hmemc : (dist, s0, p0, m0) ∈
            markets.filterMap (candidateOf d cur mb) := by
          have hx : (dist, s0, p0, m0) ∈
              (markets.filterMap (candidateOf d cur mb)).insertionSort candLE := by
            rw [hsort]; exact List.mem_cons_self _ _
          exact (List.mem_insertionSort candLE).1 hx
        obtain ⟨m1, hm1, hc1⟩ := List.mem_filterMap.1 hmemc
        have hq : Qualifies d cur mb m1 := candidateOf_isSome_iff.1 (by rw [hc1]; rfl)
        exact hall m1 hm1 hq
  · have h68 : candidateOf Direction.up 71000 (1/20) ex68 = none := by
      norm_num [candidateOf, ex68, yesPriceOf]
    have h70 : candidateOf Direction.up 71000 (1/20) ex70 = none := by
      norm_num [candidateOf, ex70, yesPriceOf]
    have h74 : candidateOf Direction.up 71000 (1/20) ex74 =
        some (3000, Side.yes, 1/50, ex74) := by
      norm_num [candidateOf, ex74, yesPriceOf]
    have hfm : List.filterMap (candidateOf Direction.up 71000 (1/20)) exMarkets =
        [(3000, Side.yes, 1/50, ex74)] := by
      simp only [exMarkets, List.filterMap_cons, List.filterMap_nil, h68, h70, h74]
    unfold select_best_price_level
    rw [hfm]
    rfl

/-- Witness for C4 at the example inputs. -/
theorem select_best_price_level_c4_witness :
    ex74 ∈ exMarkets ∧
    (select_best_price_level exMarkets Direction.up 71000 (1/20)).isSome = true := by
  obtain ⟨hmem, -⟩ :=
    select_best_price_level_c4.1 exMarkets Direction.up 71000 (1/20) Side.yes (1/50) ex74
      select_best_price_level_c4.2.2
  refine ⟨hmem, ?_⟩
  rw [select_best_price_level_c4.2.2]
  rfl

/-! ## Claim C5: threshold-market discovery ladder and import cap

`_generate_price_levels` and step 2 of `discover_above_below_markets`.
Python `round` is round-half-to-even on exact values; the import call
(`import_fast_market_market` followed by `get_market_details` and the
`external_price_yes` / `outcome_prices` fallback chain) is abstracted
as an oracle returning the market id and the extracted `yes` price on
success, `none` on failure; `_build_above_slug` and the synthesized
question text are likewise oracle functions of the level. -/

/-- Python `round` (banker's rounding, half to even) on an exact
rational. -/
def pythonRound (q : ℚ) : ℤ :=
  let f := ⌊q⌋
  let r := q - f
  if r < 1/2 then f
  else if 1/2 < r then f + 1
  else if f % 2 = 0 then f else f + 1

/-- Python `round(x, 2)`: round to cents. -/
def roundCents (q : ℚ) : ℚ := (pythonRound (q * 100) : ℚ) / 100

/-- Source `_generate_price_levels`: a symmetric ladder of
`2*num_levels + 1` levels around the current price rounded to the
nearest increment, keeping only positive levels, ascending. -/
def generate_price_levels (increment current_price : ℚ) (num_levels : Nat) : List ℚ :=
  let base := (pythonRound (current_price / increment) : ℚ) * increment
  let offs := (List.range (2 * num_levels + 1)).map (fun i => (i : ℤ) - (num_levels : ℤ))
  ((offs.map (fun o => base + (o : ℚ) * increment)).filter
      (fun l => decide (0 < l))).insertionSort (fun a b => a ≤ b)

/-- Source `sorted(levels, key=lambda l: abs(l - current_price), reverse=True)`:
stable descending order by distance from the current price. -/
def distGE (cur : ℚ) (a b : ℚ) : Prop := |b - cur| ≤ |a - cur|

instance (cur : ℚ) : DecidableRel (distGE cur) :=
  fun _ _ => inferInstanceAs (Decidable (_ ≤ _))

instance (cur : ℚ) : IsTotal ℚ (distGE cur) := ⟨fun _ _ => le_total _ _⟩

instance (cur : ℚ) : IsTrans ℚ (distGE cur) :=
  ⟨fun _ _ _ hab hbc => le_trans hbc hab⟩

/-- Source `max_imports = 4  # limit API calls per asset` -/
def max_imports : Nat := 4

/-- Successful import of a level: the venue market id plus the `yes`
price extracted from the imported market's details. -/
structure ImportOk where
  market_id : List Char
  yes_price : ℚ
  question : List Char
deriving DecidableEq

/-- The unpriced fallback candidate appended when a level is not
imported: no venue id, neutral 0.5/0.5 quote. -/
def placeholder_market (slugOf qOf : ℚ → List Char) (rdt : Int) (level : ℚ) : Market :=
  ⟨qOf level, slugOf level, [], some rdt, some level, some (1/2)⟩

/-- The `for level in levels_by_distance` loop of
`discover_above_below_markets`: skip seen levels, `break` once
`imported_count >= max_imports`, import (appending a priced market and
counting) when the API key is present and the import succeeds, append
an unpriced placeholder otherwise. -/
def import_levels_loop (imp : ℚ → Option ImportOk) (apiKey : Bool)
    (slugOf qOf : ℚ → List Char) (rdt : Int) :
    List ℚ → List ℚ → Nat → List Market
  | [], _, _ => []
  | level :: rest, seen, count =>
    if level ∈ seen then import_levels_loop imp apiKey slugOf qOf rdt rest seen count
    else if max_imports ≤ count then []
    else if apiKey then
      match imp level with
      | some ok =>
        ⟨ok.question, slugOf level, ok.market_id, some rdt, some level,
          some ok.yes_price⟩ ::
          import_levels_loop imp apiKey slugOf qOf rdt rest (level :: seen) (count + 1)
      | none =>
        placeholder_market slugOf qOf rdt level ::
          import_levels_loop imp apiKey slugOf qOf rdt rest seen count
    else
      placeholder_market slugOf qOf rdt level ::
        import_levels_loop imp apiKey slugOf qOf rdt rest seen count

/-- Step 2 of `discover_above_below_markets`: generate the ladder, order
it by distance from the current price descending, and run the import
loop with the levels already seen in step 1 and a zero import count. -/
def discover_above_below_step2 (imp : ℚ → Option ImportOk) (apiKey : Bool)
    (slugOf qOf : ℚ → List Char) (rdt : Int)
    (increment current_price : ℚ) (seen0 : List ℚ) : List Market :=
  import_levels_loop imp apiKey slugOf qOf rdt
    ((generate_price_levels increment current_price 6).insertionSort
      (distGE current_price))
    seen0 0

def midW : List Char := "m1".toList
def impW : ℚ → Option ImportOk := fun _ => some ⟨midW, 1/2, []⟩
def slugW : ℚ → List Char := fun _ => []
def qW : ℚ → List Char := fun _ => []

/-- An imported market as built by the loop under `impW`/`slugW`/`qW`. -/
def importedW (l : ℚ) : Market := ⟨[], [], midW, some 0, some l, some (1/2)⟩

/-- C5 counterexample: with increment 2000, current price 100, nothing
seen, an API key present and every import succeeding, the generated
ladder is 2000..12000; the loop imports the four farthest levels
(12000, 10000, 8000, 6000) and then `break`s at the import cap, so the
generated level 4000 is dropped from the result entirely — it is not
returned as an unpriced 0.5/0.5 placeholder as the claim states. -/
theorem discover_c5_counterexample :
    (4000 : ℚ) ∈ generate_price_levels 2000 100 6 ∧
    discover_above_below_step2 impW true slugW qW 0 2000 100 [] =
      [importedW 12000, importedW 10000, importedW 8000, importedW 6000] ∧
    some (4000 : ℚ) ∉ (discover_above_below_step2 impW true slugW qW 0 2000 100 []).map
        Market.price_level := by
  have hlev : generate_price_levels 2000 100 6 =
      [2000, 4000, 6000, 8000, 10000, 12000] := by
    norm_num [generate_price_levels, pythonRound, List.range_succ,
      List.insertionSort, List.orderedInsert]
  have hsort : List.insertionSort (distGE 100)
        [2000, 4000, 6000, 8000, 10000, 12000] =
      [12000, 10000, 8000, 6000, 4000, 2000] := by
    norm_num [List.insertionSort, List.orderedInsert, distGE]
  have hloop : import_levels_loop impW true slugW qW 0
        [12000, 10000, 8000, 6000, 4000, 2000] [] 0 =
      [importedW 12000, importedW 10000, importedW 8000, importedW 6000] := by
    norm_num [import_levels_loop, impW, importedW, max_imports, slugW, qW]
  have hstep : discover_above_below_step2 impW true slugW qW 0 2000 100 [] =
      [importedW 12000, importedW 10000, importedW 8000, importedW 6000] := by
    unfold discover_above_below_step2
    rw [hlev, hsort]
    exact hloop
  refine ⟨by rw [hlev]; norm_num, hstep, ?_⟩
  rw [hstep]
  norm_num [importedW]

theorem import_levels_loop_count_le (imp : ℚ → Option ImportOk)
    (slugOf qOf : ℚ → List Char) (rdt : Int)
    (himp : ∀ l ok, imp l = some ok → ok.market_id ≠ []) :
    ∀ (levels seen : List ℚ) (count : Nat),
      (import_levels_loop imp true slugOf qOf rdt levels seen count).countP
        (fun m => !m.simmer_market_id.isEmpty) ≤ max_imports - count := by
  intro levels
  induction levels with
  | nil => intro seen count; simp [import_levels_loop]
  | cons l rest ih =>
    intro seen count
    rw [import_levels_loop]
    split
    · exact ih seen count
    · split
      · simp
      · next hcount =>
        rw [if_pos rfl]
        rcases himpL : imp l with _ | ok
        · have hple : (placeholder_market slugOf qOf rdt l).simmer_market_id = [] := rfl
          simp only [List.countP_cons, hple, List.isEmpty_nil, Bool.not_true,
            Bool.false_eq_true, if_false, Nat.add_zero]
          exact ih seen count
        · have hid := himp l ok himpL
          have hidF : ok.market_id.isEmpty = false := by
            rcases hm : ok.market_id with _ | ⟨c, cs⟩
            · exact absurd hm hid
            · rfl
          have hrec := ih (l :: seen) (count + 1)
          simp only [List.countP_cons, hidF, Bool.not_false, if_true]
          omega

theorem import_levels_loop_placeholder (imp : ℚ → Option ImportOk)
    (slugOf qOf : ℚ → List Char) (rdt : Int)
    (himp : ∀ l ok, imp l = some ok → ok.market_id ≠ []) :
    ∀ (levels seen : List ℚ) (count : Nat) (m : Market),
      m ∈ import_levels_loop imp true slugOf qOf rdt levels seen count →
      m.simmer_market_id = [] → m.outcome_prices = some (1/2) := by
  intro levels
  induction levels with
  | nil => intro seen count m hm; simp [import_levels_loop] at hm
  | cons l rest ih =>
    intro seen count m hm hid
    rw [import_levels_loop] at hm
    split at hm
    · exact ih seen count m hm hid
    · split at hm
      · simp at hm
      · rw [if_pos rfl] at hm
        rcases himpL : imp l with _ | ok <;> rw [himpL] at hm
        · rcases List.mem_cons.1 hm with rfl | hm'
          · rfl
          · exact ih seen count m hm' hid
        · rcases List.mem_cons.1 hm with rfl | hm'
          · exact absurd hid (himp l ok himpL)
          · exact ih (l :: seen) (count + 1) m hm' hid

theorem import_levels_loop_sublist (imp : ℚ → Option ImportOk) (apiKey : Bool)
    (slugOf qOf : ℚ → List Char) (rdt : Int) :
    ∀ (levels seen : List ℚ) (count : Nat),
      ((import_levels_loop imp apiKey slugOf qOf rdt levels seen count).map
        Market.price_level).Sublist (levels.map some) := by
  intro levels
  induction levels with
  | nil => intro seen count; simp [import_levels_loop]
  | cons l rest ih =>
    intro seen count
    rw [import_levels_loop]
    split
    · exact (ih seen count).cons (some l)
    · split
      · simp
      · split
        · rcases himpL : imp l with _ | ok
          · exact (ih seen count).cons₂ (some l)
          · exact (ih (l :: seen) (count + 1)).cons₂ (some l)
        · exact (ih seen count).cons₂ (some l)

theorem import_levels_loop_noapi (imp : ℚ → Option ImportOk)
    (slugOf qOf : ℚ → List Char) (rdt : Int) :
    ∀ (levels seen : List ℚ) (count : Nat), count < max_imports →
      import_levels_loop imp false slugOf qOf rdt levels seen count =
        (levels.filter (fun l => decide (l ∉ seen))).map
          (placeholder_market slugOf qOf rdt) := by
  intro levels
  induction levels with
  | nil => intro seen count _; simp [import_levels_loop]
  | cons l rest ih =>
    intro seen count hcount
    rw [import_levels_loop]
    split
    · next hseen =>
      rw [List.filter_cons]
      rw [if_neg (by simpa using hseen)]
      exact ih seen count hcount
    · next hseen =>
      split
      · omega
      · rw [if_neg (by simp)]
        rw [List.filter_cons, if_pos (by simpa using hseen)]
        rw [List.map_cons]
        exact congrArg _ (ih seen count hcount)

/-- C5 amended: discovery generates the ladder around the rounded
current price and processes not-yet-seen levels farthest-first, but at
most `max_imports` (4) markets are imported and once the cap is reached
the loop `break`s: the remaining generated levels are dropped from the
result, not returned.  Unpriced 0.5/0.5 placeholders are produced only
for a level whose import fails, or for every not-yet-seen level when no
API key is available. -/
theorem discover_c5_amended :
    (∀ (imp : ℚ → Option ImportOk) (slugOf qOf : ℚ → List Char) (rdt : Int)
       (increment cur : ℚ) (seen0 : List ℚ),
       (∀ l ok, imp l = some ok → ok.market_id ≠ []) →
       ((discover_above_below_step2 imp true slugOf qOf rdt increment cur seen0).countP
          (fun m => !m.simmer_market_id.isEmpty) ≤ max_imports ∧
        (∀ m ∈ discover_above_below_step2 imp true slugOf qOf rdt increment cur seen0,
           m.simmer_market_id = [] → m.outcome_prices = some (1/2)) ∧
        ((discover_above_below_step2 imp true slugOf qOf rdt increment cur seen0).map
           Market.price_level).Sublist
          (((generate_price_levels increment cur 6).insertionSort (distGE cur)).map
            some))) ∧
    (∀ (imp : ℚ → Option ImportOk) (slugOf qOf : ℚ → List Char) (rdt : Int)
       (increment cur : ℚ) (seen0 : List ℚ),
       discover_above_below_step2 imp false slugOf qOf rdt increment cur seen0 =
         (((generate_price_levels increment cur 6).insertionSort (distGE cur)).filter
            (fun l => decide (l ∉ seen0))).map (placeholder_market slugOf qOf rdt)) := by
  constructor
  · intro imp slugOf qOf rdt increment cur seen0 himp
    refine ⟨?_, ?_, ?_⟩
    · have h := import_levels_loop_count_le imp slugOf qOf rdt himp
        ((generate_price_levels increment cur 6).insertionSort (distGE cur)) seen0 0
      simpa using h
    · exact fun m hm =>
        import_levels_loop_placeholder imp slugOf qOf rdt himp _ seen0 0 m hm
    · exact import_levels_loop_sublist imp true slugOf qOf rdt _ seen0 0
  · intro imp slugOf qOf rdt increment cur seen0
    exact import_levels_loop_noapi imp slugOf qOf rdt _ seen0 0
      (by norm_num [max_imports])

/-- Witness for C5-amended at the concrete counterexample inputs. -/
theorem discover_c5_amended_witness :
    ((discover_above_below_step2 impW true slugW qW 0 2000 100 []).countP
       (fun m => !m.simmer_market_id.isEmpty) ≤ max_imports) ∧
    discover_above_below_step2 impW false slugW qW 0 2000 100 [] =
      (((generate_price_levels 2000 100 6).insertionSort (distGE 100)).filter
         (fun l => decide (l ∉ ([] : List ℚ)))).map (placeholder_market slugW qW 0) := by
  have himpW : ∀ (l : ℚ) (ok : ImportOk), impW l = some ok → ok.market_id ≠ [] := by
    intro l ok h
    obtain rfl : (⟨midW, 1/2, []⟩ : ImportOk) = ok := Option.some.inj h
    decide
  exact ⟨(discover_c5_amended.1 impW slugW qW 0 2000 100 [] himpW).1,
    discover_c5_amended.2 impW slugW qW 0 2000 100 []⟩

/-! ## The per-asset decision cycle (`_run_for_asset`)

The cycle is embedded as a pure function from an environment of oracle
values (one per external call the source makes) to an observable trace.
`_parse_above_below_end_time` and `_parse_fast_market_end_time` (date
parsing via `strptime`) and the step-4 venue re-query loop are
abstracted as oracle functions; everything else follows the source.
The summary block at the end of `_run_for_asset` references the
undefined name `market_yes_price`, so every execution that reaches it
(`show_summary` is `not quiet or trade_success`) raises a `NameError`;
the trace records this as the `nameError` outcome. -/

structure Position where
  question : List Char
  redeemable : Bool
deriving DecidableEq

def upOrDownKw : List Char := "up or down".toList

def aboveKw : List Char := "above".toList

/-- The per-position conditions of `_has_active_position_for_asset`:
market-type phrasing, asset keyword, not redeemable, and no parsed end
time in the past. -/
def activeMatch (kw1 kw2 : List Char) (parseAB parseFM : List Char → Option Int)
    (now : Int) (p : Position) : Bool :=
  let q := lowerStr p.question
  (containsSub upOrDownKw q || containsSub aboveKw q) &&
  (containsSub kw1 q || containsSub kw2 q) &&
  !p.redeemable &&
  (match (parseAB p.question).orElse (fun _ => parseFM p.question) with
   | some e => !decide (e < now)
   | none => true)

/-- Source `_has_active_position_for_asset`: the first position matching all
conditions, or `None`. -/
def has_active_position_for_asset (kw1 kw2 : List Char)
    (parseAB parseFM : List Char → Option Int) (now : Int)
    (positions : List Position) : Option Position :=
  positions.find? (activeMatch kw1 kw2 parseAB parseFM now)

/-- A JSON number field as the trade-response parser sees it: absent
(or `null`), a numeric value, or a value on which `float(...)` raises
(`truthy` records its Python truthiness for the `or` chain). -/
inductive PyNum
  | missing
  | val (q : ℚ)
  | bad (truthy : Bool)
deriving DecidableEq

def pyTruthy : PyNum → Bool
  | PyNum.missing => false
  | PyNum.val q => decide (q ≠ 0)
  | PyNum.bad t => t

structure TradeResp where
  error : Bool
  shares_bought : PyNum
  shares : PyNum
  trade_id : Option (List Char)
deriving DecidableEq

/-- Source `float(result.get("shares_bought") or result.get("shares") or 0)`
with the surrounding `try/except` mapping a parse failure to 0; 0 when
there was no response at all. -/
def sharesGot (r : Option TradeResp) : ℚ :=
  match r with
  | none => 0
  | some t =>
    let v := if pyTruthy t.shares_bought then t.shares_bought
      else if pyTruthy t.shares then t.shares
      else PyNum.val 0
    match v with
    | PyNum.val q => q
    | _ => 0

/-- Source `bool(result and result.get("error"))`. -/
def hasErr : Option TradeResp → Bool
  | none => false
  | some t => t.error

/-- Source `trade_success = shares_got > 0 and not has_error`. -/
def trade_success_of (r : Option TradeResp) : Bool :=
  decide (0 < sharesGot r) && !hasErr r

/-- Truthiness of `result.get("trade_id")`. -/
def tradeIdTruthy : Option TradeResp → Bool
  | none => false
  | some t =>
    match t.trade_id with
    | some s => !s.isEmpty
    | none => false

/-- The re-fetched market details used by the live pre-trade guard:
the parsed first entry of `outcome_prices` (`none` models an empty or
unparsable pair, for which the source falls back to the selection
price). -/
structure GuardDetails where
  outcomePricesFirst : Option ℚ
deriving DecidableEq

structure Cfg where
  minMomentumPct : ℚ
  maxBuyPrice : ℚ
  maxPositionUsd : ℚ
  minTimeRemaining : Int
deriving DecidableEq

structure RunEnv where
  dryRun : Bool
  quiet : Bool
  journalAvailable : Bool
  positions : List Position
  kw1 : List Char
  kw2 : List Char
  parseAB : List Char → Option Int
  parseFM : List Char → Option Int
  now0 : Int
  now2 : Int
  momentum : Option Signal
  discover : ℚ → List Market
  requery : ℚ → Option (List Char)
  importResult : Option (List Char)
  marketDetails : Option GuardDetails
  tradeResult : Option TradeResp

inductive Outcome
  | ret (b : Bool)
  | nameError
deriving DecidableEq

structure RunTrace where
  momentumFetched : Bool
  discoveryCalled : Bool
  importCalled : Bool
  orderSubmitted : Bool
  notified : Bool
  journaled : Bool
  tradeSuccess : Bool
  liveGuardPrice : Option ℚ
  outcome : Outcome
deriving DecidableEq

def trace0 : RunTrace :=
  ⟨false, false, false, false, false, false, false, none, Outcome.ret false⟩

/-- The sizing of lines 1236–1244: `round(3000*price, 2)`, clamp by
`MAX_POSITION_USD` twice with a 0.10 floor, abort below 0.01. -/
def sizingStep (price maxPos : ℚ) : Option ℚ :=
  let ps1 := roundCents (3000 * price)
  let ps2 := min ps1 maxPos
  let ps3 := max (1/10) (min ps2 maxPos)
  if ps3 < 1/100 then none else some ps3

/-- The trade submission and its side effects (the tail of the live
branch): compute success, notify and journal only on success, then hit
the `NameError` in the summary whenever `show_summary` holds. -/
def tradeCall (env : RunEnv) (gp : Option ℚ) (base : RunTrace) : RunTrace :=
  let r := env.tradeResult
  let succ := trade_success_of r
  { base with
    liveGuardPrice := gp,
    orderSubmitted := true,
    tradeSuccess := succ,
    notified := succ,
    journaled := succ && tradeIdTruthy r && env.journalAvailable,
    outcome := if !env.quiet || succ then Outcome.nameError else Outcome.ret succ }

/-- The trade phase of `_run_for_asset`: dry-run logging only, or the
live pre-trade guard followed by the order submission. -/
def tradePhase (cfg : Cfg) (env : RunEnv) (side : Side) (price : ℚ)
    (base : RunTrace) : RunTrace :=
  if env.dryRun then
    { base with outcome := if !env.quiet then Outcome.nameError else Outcome.ret false }
  else
    match env.marketDetails with
    | some d =>
      let latest_yes := (d.outcomePricesFirst).getD price
      let latest_buy := if side = Side.yes then latest_yes else 1 - latest_yes
      if cfg.maxBuyPrice < latest_buy then
        { base with liveGuardPrice := some latest_buy, outcome := Outcome.ret false }
      else tradeCall env (some latest_buy) base
    | none => tradeCall env none base

/-- Source `_run_for_asset` as a trace-producing function. -/
def runForAsset (cfg : Cfg) (env : RunEnv) : RunTrace :=
  if !env.dryRun && !env.positions.isEmpty &&
      (has_active_position_for_asset env.kw1 env.kw2 env.parseAB env.parseFM
        env.now0 env.positions).isSome then
    trace0
  else
    match env.momentum with
    | none => { trace0 with momentumFetched := true }
    | some mo =>
      let t1 : RunTrace := { trace0 with momentumFetched := true }
      if |mo.momentum_pct| < cfg.minMomentumPct then t1
      else
        let markets := env.discover mo.price_now
        let t2 : RunTrace := { t1 with discoveryCalled := true }
        if markets.isEmpty then t2
        else
          match select_best_price_level markets mo.direction mo.price_now
              cfg.maxBuyPrice with
          | none => t2
          | some (side, price, best) =>
            match sizingStep price cfg.maxPositionUsd with
            | none => t2
            | some _ =>
              let stale :=
                match best.end_time with
                | some e => decide (e - env.now2 < cfg.minTimeRemaining)
                | none => false
              if stale then t2
              else
                let level := (best.price_level).getD 0
                let mid0 := best.simmer_market_id
                let mid1 := if mid0.isEmpty then (env.requery level).getD [] else mid0
                if mid1.isEmpty then
                  let t3 : RunTrace := { t2 with importCalled := true }
                  match env.importResult with
                  | none => t3
                  | some _ => tradePhase cfg env side price t3
                else tradePhase cfg env side price t2

/-- The per-asset loop of `run_fast_market_strategy` (lines 1432–1435):
a plain `for` with no exception handler, so an exception raised inside
one asset's cycle propagates and the remaining assets are never
processed.  Returns the list of assets actually reached. -/
def assetLoop {α : Type} (run : α → RunTrace) : List α → List α
  | [] => []
  | a :: rest =>
    match (run a).outcome with
    | Outcome.ret _ => a :: assetLoop run rest
    | Outcome.nameError => [a]

/-- C1: in live mode, when the venue's position list contains a
position matching the asset keyword, the `up or down`/`above`
market-type phrasing, not redeemable, with no parsed end time in the
past, `_run_for_asset` returns `False` immediately: momentum is never
fetched, markets are never discovered, and no order is submitted — so
the cycle never creates a second open position for the asset. -/
theorem position_guard_c1 :
    ∀ (cfg : Cfg) (env : RunEnv) (p : Position),
      env.dryRun = false →
      p ∈ env.positions →
      activeMatch env.kw1 env.kw2 env.parseAB env.parseFM env.now0 p = true →
      runForAsset cfg env = trace0 ∧
      (runForAsset cfg env).momentumFetched = false ∧
      (runForAsset cfg env).discoveryCalled = false ∧
      (runForAsset cfg env).orderSubmitted = false ∧
      (runForAsset cfg env).outcome = Outcome.ret false := by
  intro cfg env p hdry hmem hmatch
  have hsome : (has_active_position_for_asset env.kw1 env.kw2 env.parseAB env.parseFM
      env.now0 env.positions).isSome = true := by
    rw [has_active_position_for_asset, List.find?_isSome]
    exact ⟨p, hmem, hmatch⟩
  have hne : env.positions.isEmpty = false := by
    rcases hp : env.positions with _ | ⟨a, rest⟩
    · rw [hp] at hmem; simp at hmem
    · rfl
  have hcond : (!env.dryRun && !env.positions.isEmpty &&
      (has_active_position_for_asset env.kw1 env.kw2 env.parseAB env.parseFM
        env.now0 env.positions).isSome) = true := by
    rw [hdry, hne, hsome]
    rfl
  rw [runForAsset, if_pos hcond]
  exact ⟨rfl, rfl, rfl, rfl, rfl⟩

def posW : Position := ⟨"Bitcoin above 72k on March 2".toList, false⟩

def cfgW : Cfg := ⟨1/2, 1/20, 5, 60⟩

def envC1 : RunEnv :=
  { dryRun := false, quiet := false, journalAvailable := false,
    positions := [posW],
    kw1 := "bitcoin".toList, kw2 := "btc".toList,
    parseAB := fun _ => none, parseFM := fun _ => none,
    now0 := 0, now2 := 0,
    momentum := none, discover := fun _ => [], requery := fun _ => none,
    importResult := none, marketDetails := none, tradeResult := none }

/-- Witness for C1: a live cycle with an open, non-redeemable Bitcoin
threshold position skips everything. -/
theorem position_guard_c1_witness :
    runForAsset cfgW envC1 = trace0 ∧
    (runForAsset cfgW envC1).orderSubmitted = false := by
  have h := position_guard_c1 cfgW envC1 posW rfl (by simp [envC1]) (by decide)
  exact ⟨h.1, h.2.2.2.1⟩

theorem tradeCall_props (env : RunEnv) (gp : Option ℚ) (base : RunTrace)
    (hdf : env.dryRun = false) (cfgMax : ℚ)
    (hgp : ∀ b, gp = some b → b ≤ cfgMax) :
    ((tradeCall env gp base).notified = true →
      (tradeCall env gp base).tradeSuccess = true) ∧
    ((tradeCall env gp base).journaled = true →
      (tradeCall env gp base).tradeSuccess = true) ∧
    ((tradeCall env gp base).tradeSuccess = true →
      (tradeCall env gp base).orderSubmitted = true ∧
      trade_success_of env.tradeResult = true) ∧
    ((tradeCall env gp base).orderSubmitted = true → env.dryRun = false) ∧
    (∀ b, (tradeCall env gp base).liveGuardPrice = some b → cfgMax < b →
      (tradeCall env gp base).orderSubmitted = false ∧
      (tradeCall env gp base).outcome = Outcome.ret false) ∧
    ((tradeCall env gp base).orderSubmitted = true →
      ∀ b, (tradeCall env gp base).liveGuardPrice = some b → b ≤ cfgMax) := by
  refine ⟨fun h => h, ?_, fun h => ⟨rfl, h⟩, fun _ => hdf, ?_, ?_⟩
  · intro h
    have h' : (trade_success_of env.tradeResult && tradeIdTruthy env.tradeResult &&
        env.journalAvailable) = true := h
    simp only [Bool.and_eq_true] at h'
    exact h'.1.1
  · intro b hbeq hlt
    exact absurd hlt (not_lt.2 (hgp b hbeq))
  · intro _ b hbeq
    exact hgp b hbeq

theorem tradePhase_props (cfg : Cfg) (env : RunEnv) (side : Side) (price : ℚ)
    (base : RunTrace)
    (hb1 : base.orderSubmitted = false) (hb2 : base.notified = false)
    (hb3 : base.journaled = false) (hb4 : base.tradeSuccess = false)
    (hb5 : base.liveGuardPrice = none) :
    ((tradePhase cfg env side price base).notified = true →
      (tradePhase cfg env side price base).tradeSuccess = true) ∧
    ((tradePhase cfg env side price base).journaled = true →
      (tradePhase cfg env side price base).tradeSuccess = true) ∧
    ((tradePhase cfg env side price base).tradeSuccess = true →
      (tradePhase cfg env side price base).orderSubmitted = true ∧
      trade_success_of env.tradeResult = true) ∧
    ((tradePhase cfg env side price base).orderSubmitted = true →
      env.dryRun = false) ∧
    (∀ b, (tradePhase cfg env side price base).liveGuardPrice = some b →
      cfg.maxBuyPrice < b →
      (tradePhase cfg env side price base).orderSubmitted = false ∧
      (tradePhase cfg env side price base).outcome = Outcome.ret false) ∧
    ((tradePhase cfg env side price base).orderSubmitted = true →
      ∀ b, (tradePhase cfg env side price base).liveGuardPrice = some b →
        b ≤ cfg.maxBuyPrice) := by
  by_cases hdry : env.dryRun = true
  · have heq : tradePhase cfg env side price base =
        { base with
          outcome := if !env.quiet then Outcome.nameError else Outcome.ret false } := by
      rw [tradePhase, if_pos hdry]
    refine ⟨?_, ?_, ?_, ?_, ?_, ?_⟩ <;> simp [heq, hb1, hb2, hb3, hb4, hb5]
  · have hdf : env.dryRun = false := by simpa using hdry
    rcases hmd : env.marketDetails with _ | d
    · have heq : tradePhase cfg env side price base = tradeCall env none base := by
        rw [tradePhase, if_neg hdry, hmd]
      rw [heq]
      exact tradeCall_props env none base hdf cfg.maxBuyPrice
        (fun b h => absurd h (by simp))
    · by_cases hg : cfg.maxBuyPrice <
          (if side = Side.yes then (d.outcomePricesFirst).getD price
           else 1 - (d.outcomePricesFirst).getD price)
      · have heq : tradePhase cfg env side price base =
            { base with
              liveGuardPrice :=
                some (if side = Side.yes then (d.outcomePricesFirst).getD price
                  else 1 - (d.outcomePricesFirst).getD price),
              outcome := Outcome.ret false } := by
          rw [tradePhase, if_neg hdry, hmd]
          dsimp only
          rw [if_pos hg]
        refine ⟨?_, ?_, ?_, ?_, ?_, ?_⟩ <;> simp [heq, hb1, hb2, hb3, hb4, hb5]
      · have heq : tradePhase cfg env side price base =
            tradeCall env
              (some (if side = Side.yes then (d.outcomePricesFirst).getD price
                else 1 - (d.outcomePricesFirst).getD price)) base := by
          rw [tradePhase, if_neg hdry, hmd]
          dsimp only
          rw [if_neg hg]
        rw [heq]
        exact tradeCall_props env _ base hdf cfg.maxBuyPrice
          (fun b h => (Option.some.inj h) ▸ le_of_not_lt hg)

theorem runForAsset_props (cfg : Cfg) (env : RunEnv) :
    ((runForAsset cfg env).notified = true →
      (runForAsset cfg env).tradeSuccess = true) ∧
    ((runForAsset cfg env).journaled = true →
      (runForAsset cfg env).tradeSuccess = true) ∧
    ((runForAsset cfg env).tradeSuccess = true →
      (runForAsset cfg env).orderSubmitted = true ∧
      trade_success_of env.tradeResult = true) ∧
    ((runForAsset cfg env).orderSubmitted = true → env.dryRun = false) ∧
    (∀ b, (runForAsset cfg env).liveGuardPrice = some b →
      cfg.maxBuyPrice < b →
      (runForAsset cfg env).orderSubmitted = false ∧
      (runForAsset cfg env).outcome = Outcome.ret false) ∧
    ((runForAsset cfg env).orderSubmitted = true →
      ∀ b, (runForAsset cfg env).liveGuardPrice = some b →
        b ≤ cfg.maxBuyPrice) := by
  rw [runForAsset]
  repeat' (first | split | dsimp only)
  all_goals
    first
      | exact tradePhase_props cfg env _ _ _ rfl rfl rfl rfl rfl
      | (refine ⟨?_, ?_, ?_, ?_, ?_, ?_⟩ <;> simp [trace0])

/-- C3: the cycle's success flag is exactly "no error and a strictly
positive filled-share count parsed from `shares_bought` or `shares`";
zero, missing or unparsable shares with no error is still failure; and
the entry notification and journal entry are emitted only on success. -/
theorem trade_success_c3 :
    (∀ r : Option TradeResp,
       trade_success_of r = true ↔ (hasErr r = false ∧ 0 < sharesGot r)) ∧
    (∀ r : TradeResp, hasErr (some r) = false → sharesGot (some r) = 0 →
       trade_success_of (some r) = false) ∧
    (∀ (cfg : Cfg) (env : RunEnv),
       ((runForAsset cfg env).notified = true →
         (runForAsset cfg env).tradeSuccess = true) ∧
       ((runForAsset cfg env).journaled = true →
         (runForAsset cfg env).tradeSuccess = true) ∧
       ((runForAsset cfg env).tradeSuccess = true →
         (runForAsset cfg env).orderSubmitted = true ∧
         trade_success_of env.tradeResult = true)) := by
  refine ⟨?_, ?_, ?_⟩
  · intro r
    constructor
    · intro h
      have h' : (decide (0 < sharesGot r) && !hasErr r) = true := h
      simp only [Bool.and_eq_true, decide_eq_true_eq, Bool.not_eq_true'] at h'
      exact ⟨h'.2, h'.1⟩
    · rintro ⟨he, hs⟩
      show (decide (0 < sharesGot r) && !hasErr r) = true
      rw [he]
      simp [hs]
  · intro r herr hz
    show (decide (0 < sharesGot (some r)) && !hasErr (some r)) = false
    rw [hz]
    simp
  · intro cfg env
    obtain ⟨h1, h2, h3, -, -, -⟩ := runForAsset_props cfg env
    exact ⟨h1, h2, h3⟩

def sigC2 : Signal := ⟨10/7, Direction.up, 71000, 70000, 1, 1, 1, 5⟩

def mktC2 : Market := ⟨[], [], midW, some 10000, some 74000, some (1/50)⟩

def respC3 : TradeResp := ⟨false, PyNum.val 100, PyNum.missing, some ("t1".toList)⟩

def envC3 : RunEnv :=
  { dryRun := false, quiet := true, journalAvailable := true,
    positions := [], kw1 := [], kw2 := [],
    parseAB := fun _ => none, parseFM := fun _ => none,
    now0 := 0, now2 := 0,
    momentum := some sigC2, discover := fun _ => [mktC2],
    requery := fun _ => none, importResult := none,
    marketDetails := none, tradeResult := some respC3 }

theorem runC3_eval : runForAsset cfgW envC3 =
    { momentumFetched := true, discoveryCalled := true, importCalled := false,
      orderSubmitted := true, notified := true, journaled := true,
      tradeSuccess := true, liveGuardPrice := none,
      outcome := Outcome.nameError } := by
  rw [runForAsset]
  norm_num [envC3, cfgW, sigC2, mktC2, midW, select_best_price_level, candidateOf,
    yesPriceOf, List.filterMap_cons, List.insertionSort, List.orderedInsert,
    sizingStep, roundCents, pythonRound, min_def, max_def, tradePhase, tradeCall,
    trade_success_of, sharesGot, hasErr, tradeIdTruthy, pyTruthy, respC3, trace0,
    abs_of_pos (show (0 : ℚ) < 10/7 by norm_num)]

/-- Witness for C3: a concrete live trade whose response carries no
error and 100 filled shares is reported as success, with both side
effects emitted; the iff is exercised at the same concrete response. -/
theorem trade_success_c3_witness :
    (trade_success_of (some respC3) = true ↔
      (hasErr (some respC3) = false ∧ 0 < sharesGot (some respC3))) ∧
    (runForAsset cfgW envC3).notified = true ∧
    (runForAsset cfgW envC3).tradeSuccess = true := by
  refine ⟨trade_success_c3.1 (some respC3), ?_, ?_⟩
  · rw [runC3_eval]
  · exact ((trade_success_c3.2.2 cfgW envC3).1) (by rw [runC3_eval])

/-- C9: whenever the live pre-trade guard's re-fetched buy-side price
strictly exceeds `max_buy_price`, the cycle returns `False` with no
order submitted; and an order is only ever submitted in live mode with
the guard passed (any recorded guard price is at most the ceiling). -/
theorem live_guard_c9 :
    ∀ (cfg : Cfg) (env : RunEnv),
      (∀ b, (runForAsset cfg env).liveGuardPrice = some b →
        cfg.maxBuyPrice < b →
        (runForAsset cfg env).orderSubmitted = false ∧
        (runForAsset cfg env).outcome = Outcome.ret false) ∧
      ((runForAsset cfg env).orderSubmitted = true →
        env.dryRun = false ∧
        ∀ b, (runForAsset cfg env).liveGuardPrice = some b →
          b ≤ cfg.maxBuyPrice) := by
  intro cfg env
  obtain ⟨-, -, -, h4, h5, h6⟩ := runForAsset_props cfg env
  exact ⟨h5, fun ho => ⟨h4 ho, h6 ho⟩⟩

def envC9 : RunEnv :=
  { dryRun := false, quiet := true, journalAvailable := false,
    positions := [], kw1 := [], kw2 := [],
    parseAB := fun _ => none, parseFM := fun _ => none,
    now0 := 0, now2 := 0,
    momentum := some sigC2, discover := fun _ => [mktC2],
    requery := fun _ => none, importResult := none,
    marketDetails := some ⟨some (9/10)⟩, tradeResult := none }

theorem runC9_eval : runForAsset cfgW envC9 =
    { momentumFetched := true, discoveryCalled := true, importCalled := false,
      orderSubmitted := false, notified := false, journaled := false,
      tradeSuccess := false, liveGuardPrice := some (9/10),
      outcome := Outcome.ret false } := by
  rw [runForAsset]
  norm_num [envC9, cfgW, sigC2, mktC2, midW, select_best_price_level, candidateOf,
    yesPriceOf, List.filterMap_cons, List.insertionSort, List.orderedInsert,
    sizingStep, roundCents, pythonRound, min_def, max_def, tradePhase, tradeCall,
    trace0, abs_of_pos (show (0 : ℚ) < 10/7 by norm_num)]

/-- Witness for C9: a live quote of 0.90 against a ceiling of 0.05
aborts the cycle before any order. -/
theorem live_guard_c9_witness :
    (runForAsset cfgW envC9).liveGuardPrice = some (9/10) ∧
    (runForAsset cfgW envC9).orderSubmitted = false ∧
    (runForAsset cfgW envC9).outcome = Outcome.ret false := by
  have h := (live_guard_c9 cfgW envC9).1 (9/10) (by rw [runC9_eval])
    (by norm_num [cfgW])
  exact ⟨by rw [runC9_eval], h⟩

/-- C10: the position size is `round(3000*price, 2)` clamped into
`[0.10, max_position_usd]`, so (when the ceiling is at least the 0.10
floor) the result always lies in that interval — in particular it never
falls below the 0.01 minimum, and the sizing abort fires exactly when
the clamped value is below 0.01, before any import or order. -/
theorem sizing_c10 :
    ∀ (price maxPos : ℚ), 0 < price → 1/10 ≤ maxPos →
      sizingStep price maxPos =
        some (max (1/10) (min (roundCents (3000 * price)) maxPos)) ∧
      (∀ s, sizingStep price maxPos = some s → 1/10 ≤ s ∧ s ≤ maxPos) ∧
      (∀ q : ℚ,
        max (1/10) (min (min (roundCents (3000 * q)) maxPos) maxPos) < 1/100 →
        sizingStep q maxPos = none) := by
  intro price maxPos hp hmax
  have hkey : ∀ q : ℚ,
      ¬ (max (1/10 : ℚ) (min (min (roundCents (3000 * q)) maxPos) maxPos) <
        1/100) := by
    intro q
    exact not_lt.2 (le_trans (by norm_num) (le_max_left _ _))
  refine ⟨?_, ?_, ?_⟩
  · simp only [sizingStep]
    rw [if_neg (hkey price), min_assoc, min_self]
  · intro s hs
    simp only [sizingStep] at hs
    rw [if_neg (hkey price)] at hs
    obtain rfl := (Option.some.inj hs).symm
    exact ⟨le_max_left _ _, max_le hmax (min_le_right _ _)⟩
  · intro q hq
    simp only [sizingStep]
    rw [if_pos hq]

/-- Witness for C10 at the entry price 0.02 and ceiling 5. -/
theorem sizing_c10_witness :
    sizingStep (1/50) 5 = some (max (1/10) (min (roundCents (3000 * (1/50))) 5)) ∧
    (∀ s, sizingStep (1/50) 5 = some s → 1/10 ≤ s ∧ s ≤ 5) := by
  have h := sizing_c10 (1/50) 5 (by norm_num) (by norm_num)
  exact ⟨h.1, h.2.1⟩

def envC2 : RunEnv :=
  { dryRun := true, quiet := false, journalAvailable := false,
    positions := [], kw1 := [], kw2 := [],
    parseAB := fun _ => none, parseFM := fun _ => none,
    now0 := 0, now2 := 0,
    momentum := some sigC2, discover := fun _ => [mktC2],
    requery := fun _ => none, importResult := none,
    marketDetails := none, tradeResult := none }

theorem runC2_eval : runForAsset cfgW envC2 =
    { momentumFetched := true, discoveryCalled := true, importCalled := false,
      orderSubmitted := false, notified := false, journaled := false,
      tradeSuccess := false, liveGuardPrice := none,
      outcome := Outcome.nameError } := by
  rw [runForAsset]
  norm_num [envC2, cfgW, sigC2, mktC2, midW, select_best_price_level, candidateOf,
    yesPriceOf, List.filterMap_cons, List.insertionSort, List.orderedInsert,
    sizingStep, roundCents, pythonRound, min_def, max_def, tradePhase, trace0,
    abs_of_pos (show (0 : ℚ) < 10/7 by norm_num)]

/-- C2 (code bug): the per-asset loop of `run_fast_market_strategy` has
no exception handler, and the summary at the end of `_run_for_asset`
references the undefined name `market_yes_price`, raising a `NameError`
on every path that reaches it with `show_summary` true.  At a concrete
default (dry-run, non-quiet) configuration with a qualifying selection
for the first asset, the first asset's cycle raises and the second
asset is never processed — contradicting the claim that faults in one
asset's cycle never prevent the loop from reaching the remaining
assets. -/
theorem asset_loop_c2_bug :
    (runForAsset cfgW envC2).outcome = Outcome.nameError ∧
    assetLoop (fun _ => runForAsset cfgW envC2) ["BTC".toList, "ETH".toList] =
      ["BTC".toList] ∧
    "ETH".toList ∉ assetLoop (fun _ => runForAsset cfgW envC2)
      ["BTC".toList, "ETH".toList] := by
  have hloop : assetLoop (fun _ => runForAsset cfgW envC2)
      ["BTC".toList, "ETH".toList] = ["BTC".toList] := by
    rw [assetLoop]
    simp only [runC2_eval]
  refine ⟨by rw [runC2_eval], hloop, ?_⟩
  rw [hloop]
  decide
